import Mathlib

/-!
Verification development for the spreadsheet-stacking pipeline
(empilhamentoXLSX): a shallow embedding of the core functions
(file locator, schema-reconciling concatenation, combiner worker loop)
together with theorems about the specified properties.

Modelling conventions:
* A pandas DataFrame is a list of column names plus a list of rows,
  each row a list of cell values; a cell is a `Val` where `Val.na`
  models pandas NaN (the missing-value sentinel produced by reindex).
* The worker's interaction with the outside world (which files exist,
  whether each file opens and has the target sheet, whether the final
  write succeeds, when the cancellation flag is observed set) is an
  input to the pure model.
* Python's `int(idx / total * 100)` is modelled as the exact rational
  floor `idx * 100 / total` (Nat division); the binary floating-point
  evaluation in Python agrees with the exact floor on the concrete
  inputs used below.
-/

/-- Cell values. `na` models pandas NaN, the explicit missing-value
sentinel used by `DataFrame.reindex` for absent columns; it is distinct
from any number and any string. -/
inductive Val where
  | na : Val
  | num : Int → Val
  | str : String → Val
deriving DecidableEq, Repr

/-- A pandas DataFrame: ordered column names and rows of cell values.
In every frame produced by `pd.read_excel` the rows all have length
`cols.length` and the column names are distinct (pandas mangles
duplicate headers); theorems take these as explicit hypotheses where
they are needed. -/
structure DataFrame where
  cols : List String
  rows : List (List Val)
deriving DecidableEq, Repr

/-- `df.empty` in pandas: true when any axis has length 0. -/
def DataFrame.isEmpty (df : DataFrame) : Bool :=
  df.rows.isEmpty || df.cols.isEmpty

/-- Observation function: the value a row holds in a named column, given
the column list the row is aligned with (first occurrence wins, matching
label lookup on an index without duplicates); `na` when the column is
absent. -/
def getCell : List String → List Val → String → Val
  | [], _, _ => .na
  | _ :: _, [], _ => .na
  | c0 :: cs, v :: vs, c => if c0 = c then v else getCell cs vs c

/-- One row after `df.reindex(columns := u)`: for each column of `u`,
the row's value there, `na` (NaN) when the frame lacks the column. -/
def reindexRow (cols : List String) (u : List String) (row : List Val) : List Val :=
  u.map (fun c => getCell cols row c)

/-- `df.reindex(columns := u)`: same rows, aligned to the column list `u`,
missing columns filled with the `na` sentinel. -/
def reindex (u : List String) (df : DataFrame) : DataFrame :=
  ⟨u, df.rows.map (reindexRow df.cols u)⟩

/-- The inner loop of `safe_concat` for one frame: append each column
name not yet present (the `seen` set of the source is exactly the set of
elements of the accumulator, so membership is tested in the accumulator). -/
def addCols (acc : List String) (cs : List String) : List String :=
  cs.foldl (fun a c => if c ∈ a then a else a ++ [c]) acc

/-- First-seen deduplication of a flat list of column names. -/
def firstSeen (l : List String) : List String :=
  l.foldl (fun a c => if c ∈ a then a else a ++ [c]) []

/-- `all_cols` of `safe_concat`: ordered union of the frames' columns,
each column appended the first time it is seen in processing order. -/
def unionCols (dfs : List DataFrame) : List String :=
  dfs.foldl (fun a df => addCols a df.cols) []

/-- The reindexing pass of `safe_concat`: every frame aligned to the
ordered union of all columns. -/
def reconcile (dfs : List DataFrame) : List DataFrame :=
  dfs.map (reindex (unionCols dfs))

/-- `safe_concat`: empty input gives the empty frame `pd.DataFrame()`;
otherwise the frames are reindexed to the ordered column union and their
rows stacked in order (`pd.concat` with `ignore_index := true`). -/
def safe_concat (dfs : List DataFrame) : DataFrame :=
  if dfs.isEmpty then ⟨[], []⟩
  else ⟨unionCols dfs, ((reconcile dfs).map (fun df => df.rows)).flatten⟩

/-- `df.insert(0, "Arquivo_Origem", base)`: prepend the source-file
column with the file's base name in every row. (pandas raises if the
column already exists; the model covers the successful insert.) -/
def addSourceCol (base : String) (df : DataFrame) : DataFrame :=
  ⟨"Arquivo_Origem" :: df.cols, df.rows.map (fun r => Val.str base :: r)⟩

/-! ## File locator -/

/-- `os.path.basename` for POSIX-style paths: the part after the last
slash. -/
def basename (p : String) : String :=
  (p.splitOn "/").getLastD ""

/-- `os.path.splitext` on a single path component: split at the last
dot, except that leading dots of the component never start an
extension. -/
def splitExt (name : String) : String × String :=
  let cs := name.toList
  match cs.reverse.span (fun c => c ≠ '.') with
  | (_, []) => (name, "")
  | (revAfter, _ :: revBefore) =>
    if revBefore.any (fun c => c ≠ '.') then
      (String.mk revBefore.reverse, String.mk ('.' :: revAfter.reverse))
    else (name, "")

/-- `is_excel_file`: reject Office lock files (base name starting with
"~$"), then accept exactly the case-insensitive extensions .xlsx and
.xlsm. -/
def isExcelFile (path : String) : Bool :=
  let name := basename path
  if name.startsWith "~$" then false
  else
    let ext := (splitExt name).2.toLower
    ext == ".xlsx" || ext == ".xlsm"

/-- The full paths enumerated before the extension filter:
in recursive mode, `os.walk` yields (directory, filenames) pairs and
each filename is joined to its directory; otherwise `os.listdir` yields
(name, is-regular-file) entries of the root and only regular files are
kept. Both listings are inputs from the operating system. -/
def candidatePaths (recursive : Bool) (rootDir : String)
    (walk : List (String × List String)) (listing : List (String × Bool)) : List String :=
  if recursive then
    (walk.map (fun rf => rf.2.map (fun fn => rf.1 ++ "/" ++ fn))).flatten
  else
    (listing.filter (fun e => e.2)).map (fun e => rootDir ++ "/" ++ e.1)

/-- `list_excel_files`: filter the enumerated paths with `isExcelFile`
and sort the result lexicographically by full path (`files.sort()`). -/
def listExcelFiles (recursive : Bool) (rootDir : String)
    (walk : List (String × List String)) (listing : List (String × Bool)) : List String :=
  ((candidatePaths recursive rootDir walk listing).filter isExcelFile).mergeSort
    (fun a b => decide (a ≤ b))

/-! ## Combiner worker -/

/-- Outcome of opening one candidate file, an input to the pure model:
the target sheet is missing; opening raised; reading the sheet raised
(after the sheet-name check, so the with-sheet counter was already
incremented); or the sheet was read into a frame. -/
inductive FileResult where
  | noSheet : FileResult
  | openError : FileResult
  | readFail : FileResult
  | ok : DataFrame → FileResult
deriving DecidableEq, Repr

/-- The status strings passed to the progress callback, as tags. -/
inductive Status where
  | noFilesSt : Status
  | skippedSt : String → Status
  | errorSt : String → Status
  | readSt : String → Status
  | cancelledSt : Status
  | noDataSt : Status
  | saveErrSt : Status
  | doneSt : Status
deriving DecidableEq, Repr

/-- The log messages emitted by the worker, as tags. -/
inductive LogMsg where
  | noFilesFound : LogMsg
  | foundCount : Nat → LogMsg
  | cancelledMsg : LogMsg
  | skippedMsg : String → LogMsg
  | readErrMsg : String → LogMsg
  | summary : Nat → Nat → LogMsg
  | emptyWarn : List String → LogMsg
  | noDataMsg : LogMsg
  | successRows : Nat → LogMsg
  | savedPath : LogMsg
  | saveErrMsg : LogMsg
deriving DecidableEq, Repr

/-- Terminal states of one worker run. -/
inductive Terminal where
  | noFiles : Terminal
  | cancelled : Terminal
  | noData : Terminal
  | error : Terminal
  | completed : Terminal
deriving DecidableEq, Repr

/-- `int(idx / total * 100)` as the exact floor. -/
def pct (idx total : Nat) : Nat :=
  idx * 100 / total

/-- The cancellation flag: observed set at (1-based) iteration `idx`
exactly when it was requested at some iteration `c ≤ idx` (the flag is
set once and never cleared within a run). -/
def isSet (cAt : Option Nat) (idx : Nat) : Bool :=
  match cAt with
  | none => false
  | some c => c ≤ idx

/-- The worker loop's mutable locals. -/
structure LoopState where
  frames : List DataFrame
  processed : Nat
  withSheet : Nat
  emptyList : List String
  logs : List LogMsg
  progress : List (Nat × Status)
deriving DecidableEq, Repr

/-- The per-file loop of `CombinerWorker.run` (lines 87-117): check the
cancellation flag, then handle the file's outcome; emits one progress
update per file at `int(idx / total * 100)`. Returns the final state and
whether the loop exited through the cancellation branch. -/
def runLoop (total : Nat) (addCol : Bool) (cAt : Option Nat) :
    Nat → List (String × FileResult) → LoopState → LoopState × Bool
  | _, [], s => (s, false)
  | idx, (base, fr) :: rest, s =>
    if isSet cAt idx then
      ({ s with logs := s.logs ++ [.cancelledMsg],
                progress := s.progress ++ [(pct idx total, .cancelledSt)] }, true)
    else
      match fr with
      | .noSheet =>
        runLoop total addCol cAt (idx + 1) rest
          { s with logs := s.logs ++ [.skippedMsg base],
                   progress := s.progress ++ [(pct idx total, .skippedSt base)] }
      | .openError =>
        runLoop total addCol cAt (idx + 1) rest
          { s with logs := s.logs ++ [.readErrMsg base],
                   progress := s.progress ++ [(pct idx total, .errorSt base)] }
      | .readFail =>
        runLoop total addCol cAt (idx + 1) rest
          { s with withSheet := s.withSheet + 1,
                   logs := s.logs ++ [.readErrMsg base],
                   progress := s.progress ++ [(pct idx total, .errorSt base)] }
      | .ok df =>
        if df.isEmpty then
          runLoop total addCol cAt (idx + 1) rest
            { s with withSheet := s.withSheet + 1,
                     emptyList := s.emptyList ++ [base],
                     processed := s.processed + 1,
                     progress := s.progress ++ [(pct idx total, .readSt base)] }
        else
          runLoop total addCol cAt (idx + 1) rest
            { s with withSheet := s.withSheet + 1,
                     frames := s.frames ++ [if addCol then addSourceCol base df else df],
                     processed := s.processed + 1,
                     progress := s.progress ++ [(pct idx total, .readSt base)] }

/-- Everything one worker run produces that the outside can observe:
logs, progress events, the terminal state, the combined output if one
was written, and the list of retained frames. -/
structure RunResult where
  logs : List LogMsg
  progress : List (Nat × Status)
  terminal : Terminal
  output : Option DataFrame
  frames : List DataFrame
deriving DecidableEq, Repr

/-- The post-loop phase of `CombinerWorker.run` (lines 89-91 on the
cancellation exit then 119-147): report cancellation, or summarise, and
either report no data, save and complete, or report the save failure.
Takes the loop's final state and whether the loop exited cancelled. -/
def finishRun (writeOk : Bool) (p : LoopState × Bool) : RunResult :=
  let s := p.1
  if p.2 then
    { logs := s.logs, progress := s.progress,
      terminal := .cancelled, output := none, frames := s.frames }
  else
    let logs1 := s.logs ++ [.summary s.processed s.withSheet]
      ++ (if s.emptyList.isEmpty then [] else [.emptyWarn s.emptyList])
    if s.frames.isEmpty then
      { logs := logs1 ++ [.noDataMsg], progress := s.progress ++ [(100, .noDataSt)],
        terminal := .noData, output := none, frames := s.frames }
    else
      let combined := safe_concat s.frames
      if writeOk then
        { logs := logs1 ++ [.successRows combined.rows.length, .savedPath],
          progress := s.progress ++ [(100, .doneSt)],
          terminal := .completed, output := some combined, frames := s.frames }
      else
        { logs := logs1 ++ [.saveErrMsg], progress := s.progress ++ [(100, .saveErrSt)],
          terminal := .error, output := none, frames := s.frames }

/-- `CombinerWorker.run` on the candidate files (given as base name plus
open/read outcome), the add-source-column flag, the cancellation
request, and whether the final save succeeds. Zero candidates end the
run at once with progress 0; otherwise the per-file loop runs and the
post-loop phase finishes the run. -/
def run (files : List (String × FileResult)) (addCol : Bool)
    (cAt : Option Nat) (writeOk : Bool) : RunResult :=
  let total := files.length
  if total = 0 then
    { logs := [.noFilesFound], progress := [(0, .noFilesSt)],
      terminal := .noFiles, output := none, frames := [] }
  else
    finishRun writeOk (runLoop total addCol cAt 1 files
      { frames := [], processed := 0, withSheet := 0, emptyList := [],
        logs := [.foundCount total], progress := [] })

/-- The frame a single candidate contributes to the retained list:
only a successfully read, non-empty sheet, tagged with its source name
when the option is on. -/
def frameOf (addCol : Bool) (bf : String × FileResult) : Option DataFrame :=
  match bf.2 with
  | .ok df => if df.isEmpty then none else some (if addCol then addSourceCol bf.1 df else df)
  | _ => none

/-- The retained frames of a whole candidate list. -/
def framesOf (addCol : Bool) (files : List (String × FileResult)) : List DataFrame :=
  files.filterMap (frameOf addCol)

/-- The per-file status tag a candidate produces when processed. -/
def statusOf (bf : String × FileResult) : Status :=
  match bf.2 with
  | .noSheet => .skippedSt bf.1
  | .openError => .errorSt bf.1
  | .readFail => .errorSt bf.1
  | .ok _ => .readSt bf.1

/-- The progress events an uncancelled loop emits from iteration `idx`
over the given candidates. -/
def progressOf (total : Nat) : Nat → List (String × FileResult) → List (Nat × Status)
  | _, [] => []
  | idx, bf :: rest => (pct idx total, statusOf bf) :: progressOf total (idx + 1) rest

/-- The log entries one candidate produces when processed. -/
def logOf (bf : String × FileResult) : List LogMsg :=
  match bf.2 with
  | .noSheet => [.skippedMsg bf.1]
  | .openError => [.readErrMsg bf.1]
  | .readFail => [.readErrMsg bf.1]
  | .ok _ => []

/-! ## Lemmas: column union -/

theorem addCols_nil (acc : List String) : addCols acc [] = acc := rfl

theorem addCols_cons (acc : List String) (c : String) (cs : List String) :
    addCols acc (c :: cs) = addCols (if c ∈ acc then acc else acc ++ [c]) cs := rfl

theorem mem_addCols (acc cs : List String) (c : String) :
    c ∈ addCols acc cs ↔ c ∈ acc ∨ c ∈ cs := by
  induction cs generalizing acc with
  | nil => simp [addCols_nil]
  | cons d ds ih =>
    rw [addCols_cons]
    by_cases hd : d ∈ acc
    · simp only [if_pos hd, ih]
      constructor
      · rintro (h | h)
        · exact Or.inl h
        · exact Or.inr (List.mem_cons_of_mem _ h)
      · rintro (h | h)
        · exact Or.inl h
        · rcases List.mem_cons.mp h with h | h
          · exact Or.inl (h ▸ hd)
          · exact Or.inr h
    · simp only [if_neg hd, ih, List.mem_append, List.mem_singleton, List.mem_cons]
      tauto

theorem nodup_addCols (acc cs : List String) (h : acc.Nodup) : (addCols acc cs).Nodup := by
  induction cs generalizing acc with
  | nil => exact h
  | cons d ds ih =>
    rw [addCols_cons]
    by_cases hd : d ∈ acc
    · rw [if_pos hd]; exact ih acc h
    · rw [if_neg hd]
      exact ih _ (by simp [List.nodup_append, h, hd])

theorem addCols_of_subset (acc cs : List String) (h : ∀ c ∈ cs, c ∈ acc) :
    addCols acc cs = acc := by
  induction cs with
  | nil => rfl
  | cons d ds ih =>
    rw [addCols_cons, if_pos (h d (List.mem_cons_self d ds))]
    exact ih fun c hc => h c (List.mem_cons_of_mem d hc)

theorem addCols_eq_append (acc cs : List String) (h : (acc ++ cs).Nodup) :
    addCols acc cs = acc ++ cs := by
  induction cs generalizing acc with
  | nil => simp [addCols_nil]
  | cons d ds ih =>
    have hd : d ∉ acc := by
      intro hmem
      exact (List.disjoint_of_nodup_append h) hmem (List.mem_cons_self d ds)
    rw [addCols_cons, if_neg hd]
    have h2 : ((acc ++ [d]) ++ ds).Nodup := by
      simpa [List.append_assoc] using h
    rw [ih (acc ++ [d]) h2, List.append_assoc]
    rfl

theorem addCols_head (acc cs : List String) (h : acc ≠ []) :
    (addCols acc cs).head? = acc.head? := by
  induction cs generalizing acc with
  | nil => rfl
  | cons d ds ih =>
    rw [addCols_cons]
    by_cases hd : d ∈ acc
    · rw [if_pos hd]; exact ih acc h
    · rw [if_neg hd, ih (acc ++ [d]) (by simp)]
      rcases acc with _ | ⟨a, t⟩
      · exact absurd rfl h
      · rfl

theorem firstSeen_eq_addCols (l : List String) : firstSeen l = addCols [] l := rfl

theorem firstSeen_of_nodup (l : List String) (h : l.Nodup) : firstSeen l = l := by
  rw [firstSeen_eq_addCols, addCols_eq_append [] l (by simpa using h)]
  simp

theorem unionCols_nil : unionCols [] = [] := rfl

theorem unionCols_cons (df : DataFrame) (dfs : List DataFrame) :
    unionCols (df :: dfs) = dfs.foldl (fun a d => addCols a d.cols) (addCols [] df.cols) := rfl

theorem foldl_addCols_nodup (dfs : List DataFrame) (acc : List String) (h : acc.Nodup) :
    (dfs.foldl (fun a d => addCols a d.cols) acc).Nodup := by
  induction dfs generalizing acc with
  | nil => exact h
  | cons d ds ih => exact ih _ (nodup_addCols acc d.cols h)

theorem unionCols_nodup (dfs : List DataFrame) : (unionCols dfs).Nodup :=
  foldl_addCols_nodup dfs [] List.nodup_nil

theorem mem_foldl_addCols (dfs : List DataFrame) (acc : List String) (c : String) :
    c ∈ dfs.foldl (fun a d => addCols a d.cols) acc ↔ c ∈ acc ∨ ∃ df ∈ dfs, c ∈ df.cols := by
  induction dfs generalizing acc with
  | nil => simp
  | cons d ds ih =>
    simp only [List.foldl_cons, ih, mem_addCols, List.mem_cons]
    constructor
    · rintro ((h | h) | ⟨df, hdf, hc⟩)
      · exact Or.inl h
      · exact Or.inr ⟨d, Or.inl rfl, h⟩
      · exact Or.inr ⟨df, Or.inr hdf, hc⟩
    · rintro (h | ⟨df, h | h, hc⟩)
      · exact Or.inl (Or.inl h)
      · exact Or.inl (Or.inr (h ▸ hc))
      · exact Or.inr ⟨df, h, hc⟩

theorem mem_unionCols (dfs : List DataFrame) (c : String) :
    c ∈ unionCols dfs ↔ ∃ df ∈ dfs, c ∈ df.cols := by
  rw [unionCols, mem_foldl_addCols]
  simp

theorem cols_subset_unionCols (dfs : List DataFrame) (df : DataFrame) (h : df ∈ dfs) :
    df.cols ⊆ unionCols dfs := fun c hc => (mem_unionCols dfs c).mpr ⟨df, h, hc⟩

theorem foldl_addCols_flatten (dfs : List DataFrame) (acc : List String) :
    dfs.foldl (fun a d => addCols a d.cols) acc
      = ((dfs.map (fun d => d.cols)).flatten).foldl
          (fun a c => if c ∈ a then a else a ++ [c]) acc := by
  induction dfs generalizing acc with
  | nil => rfl
  | cons d ds ih =>
    simp only [List.foldl_cons, List.map_cons, List.flatten_cons, List.foldl_append]
    exact ih (addCols acc d.cols)

theorem unionCols_eq_firstSeen (dfs : List DataFrame) :
    unionCols dfs = firstSeen ((dfs.map (fun d => d.cols)).flatten) :=
  foldl_addCols_flatten dfs []

/-! ## Lemmas: cell access and reindexing -/

theorem getCell_map (u : List String) (f : String → Val) (c : String) (h : c ∈ u) :
    getCell u (u.map f) c = f c := by
  induction u with
  | nil => cases h
  | cons c0 cs ih =>
    simp only [List.map_cons, getCell]
    by_cases hc : c0 = c
    · rw [if_pos hc, hc]
    · rw [if_neg hc]
      rcases List.mem_cons.mp h with h1 | h1
      · exact absurd h1.symm hc
      · exact ih h1

theorem getCell_not_mem (cols : List String) (row : List Val) (c : String) (h : c ∉ cols) :
    getCell cols row c = Val.na := by
  induction cols generalizing row with
  | nil => cases row <;> rfl
  | cons c0 cs ih =>
    cases row with
    | nil => rfl
    | cons v vs =>
      have hc : c0 ≠ c := fun he => h (he ▸ List.mem_cons_self c0 cs)
      simp only [getCell, if_neg hc]
      exact ih vs fun hm => h (List.mem_cons_of_mem c0 hm)

theorem getCell_reindexRow (cols u : List String) (row : List Val) (c : String) (h : c ∈ u) :
    getCell u (reindexRow cols u row) c = getCell cols row c :=
  getCell_map u (fun c => getCell cols row c) c h

theorem reindexRow_length (cols u : List String) (row : List Val) :
    (reindexRow cols u row).length = u.length := by
  simp [reindexRow]

theorem reindexRow_self (cols : List String) (row : List Val)
    (hnd : cols.Nodup) (hlen : row.length = cols.length) :
    reindexRow cols cols row = row := by
  induction cols generalizing row with
  | nil =>
    cases row with
    | nil => rfl
    | cons v vs => simp at hlen
  | cons c0 cs ih =>
    cases row with
    | nil => simp at hlen
    | cons v vs =>
      have h0 : getCell (c0 :: cs) (v :: vs) c0 = v := by simp [getCell]
      have hni : c0 ∉ cs := (List.nodup_cons.mp hnd).1
      have hmap : (cs.map fun c => getCell (c0 :: cs) (v :: vs) c)
          = cs.map fun c => getCell cs vs c := by
        refine List.map_congr_left fun c hc => ?_
        have hne : c0 ≠ c := fun he => hni (he ▸ hc)
        simp [getCell, hne]
      have htail : (cs.map fun c => getCell cs vs c) = vs :=
        ih vs (List.nodup_cons.mp hnd).2 (by simpa using hlen)
      show (c0 :: cs).map (fun c => getCell (c0 :: cs) (v :: vs) c) = v :: vs
      rw [List.map_cons, h0, hmap, htail]

theorem reindexRow_idem (cols u : List String) (row : List Val) :
    reindexRow u u (reindexRow cols u row) = reindexRow cols u row := by
  unfold reindexRow
  exact List.map_congr_left fun c hc => getCell_map u _ c hc

theorem reindex_cols (u : List String) (df : DataFrame) : (reindex u df).cols = u := rfl

theorem reindex_rows_length (u : List String) (df : DataFrame) :
    (reindex u df).rows.length = df.rows.length := by
  simp [reindex]

theorem reindex_idem (u : List String) (df : DataFrame) :
    reindex u (reindex u df) = reindex u df := by
  simp only [reindex, List.map_map]
  exact congrArg _ (List.map_congr_left fun r hr => reindexRow_idem df.cols u r)

theorem reindex_self (df : DataFrame) (hnd : df.cols.Nodup)
    (hw : ∀ r ∈ df.rows, r.length = df.cols.length) :
    reindex df.cols df = df := by
  rcases df with ⟨cols, rows⟩
  simp only [reindex, DataFrame.mk.injEq, true_and]
  calc rows.map (reindexRow cols cols)
      = rows.map id := List.map_congr_left fun r hr => reindexRow_self cols r hnd (hw r hr)
    _ = rows := List.map_id rows

/-! ## Lemmas: reconciliation and concatenation -/

theorem unionCols_all_same (l : List DataFrame) (u acc : List String)
    (hall : ∀ df ∈ l, df.cols = u) (hsub : ∀ c ∈ u, c ∈ acc) :
    l.foldl (fun a d => addCols a d.cols) acc = acc := by
  induction l with
  | nil => rfl
  | cons d ds ih =>
    simp only [List.foldl_cons, hall d (List.mem_cons_self d ds), addCols_of_subset acc u hsub]
    exact ih fun df hdf => hall df (List.mem_cons_of_mem d hdf)

theorem unionCols_reconcile (dfs : List DataFrame) :
    unionCols (reconcile dfs) = unionCols dfs := by
  cases dfs with
  | nil => rfl
  | cons d ds =>
    set u := unionCols (d :: ds) with hu_def
    have hu : u.Nodup := unionCols_nodup (d :: ds)
    have h1 : reconcile (d :: ds) = reindex u d :: ds.map (reindex u) := by
      simp [reconcile]
    rw [h1, unionCols_cons]
    have h3 : addCols [] u = u := by
      have := firstSeen_of_nodup u hu
      rwa [firstSeen_eq_addCols] at this
    rw [show (reindex u d).cols = u from rfl, h3]
    exact unionCols_all_same (ds.map (reindex u)) u u
      (fun df hdf => by rcases List.mem_map.mp hdf with ⟨d2, hd2, rfl⟩; rfl)
      (fun c hc => hc)

theorem reconcile_idem (dfs : List DataFrame) :
    reconcile (reconcile dfs) = reconcile dfs := by
  unfold reconcile
  rw [show unionCols ((dfs.map (reindex (unionCols dfs)))) = unionCols dfs from
    unionCols_reconcile dfs]
  rw [List.map_map]
  exact List.map_congr_left fun df hdf => reindex_idem (unionCols dfs) df

theorem safe_concat_nil : safe_concat [] = ⟨[], []⟩ := rfl

theorem safe_concat_cols (dfs : List DataFrame) (h : dfs ≠ []) :
    (safe_concat dfs).cols = unionCols dfs := by
  unfold safe_concat
  rw [if_neg (by simpa using h)]

theorem safe_concat_rows (dfs : List DataFrame) (h : dfs ≠ []) :
    (safe_concat dfs).rows = ((reconcile dfs).map (fun df => df.rows)).flatten := by
  unfold safe_concat
  rw [if_neg (by simpa using h)]

/-! ## Lemmas: the worker loop -/

theorem pct_mono (t : Nat) {i j : Nat} (h : i ≤ j) : pct i t ≤ pct j t :=
  Nat.div_le_div_right (Nat.mul_le_mul_right 100 h)

theorem pct_le_100 (t : Nat) {i : Nat} (h : i ≤ t) : pct i t ≤ 100 := by
  rcases Nat.eq_zero_or_pos t with h0 | h0
  · subst h0; simp [pct]
  · calc pct i t ≤ pct t t := pct_mono t h
      _ = 100 := Nat.mul_div_cancel_left 100 h0

theorem runLoop_none_snd (total : Nat) (addCol : Bool) (files : List (String × FileResult)) :
    ∀ (idx : Nat) (s : LoopState), (runLoop total addCol none idx files s).2 = false := by
  induction files with
  | nil => intro idx s; rfl
  | cons bf rest ih =>
    intro idx s
    rcases bf with ⟨base, fr⟩
    cases fr with
    | noSheet => simpa [runLoop, isSet] using ih (idx + 1) _
    | openError => simpa [runLoop, isSet] using ih (idx + 1) _
    | readFail => simpa [runLoop, isSet] using ih (idx + 1) _
    | ok df =>
      by_cases hdf : df.isEmpty <;>
        simpa [runLoop, isSet, hdf] using ih (idx + 1) _

theorem runLoop_none_frames (total : Nat) (addCol : Bool) (files : List (String × FileResult)) :
    ∀ (idx : Nat) (s : LoopState),
      (runLoop total addCol none idx files s).1.frames = s.frames ++ framesOf addCol files := by
  induction files with
  | nil => intro idx s; simp [runLoop, framesOf]
  | cons bf rest ih =>
    intro idx s
    rcases bf with ⟨base, fr⟩
    cases fr with
    | noSheet => simp [runLoop, isSet, framesOf, frameOf, ih (idx + 1)]
    | openError => simp [runLoop, isSet, framesOf, frameOf, ih (idx + 1)]
    | readFail => simp [runLoop, isSet, framesOf, frameOf, ih (idx + 1)]
    | ok df =>
      by_cases hdf : df.isEmpty <;>
        simp [runLoop, isSet, hdf, framesOf, frameOf, ih (idx + 1)]

theorem runLoop_none_progress (total : Nat) (addCol : Bool) (files : List (String × FileResult)) :
    ∀ (idx : Nat) (s : LoopState),
      (runLoop total addCol none idx files s).1.progress
        = s.progress ++ progressOf total idx files := by
  induction files with
  | nil => intro idx s; simp [runLoop, progressOf]
  | cons bf rest ih =>
    intro idx s
    rcases bf with ⟨base, fr⟩
    cases fr with
    | noSheet => simp [runLoop, isSet, progressOf, statusOf, ih (idx + 1)]
    | openError => simp [runLoop, isSet, progressOf, statusOf, ih (idx + 1)]
    | readFail => simp [runLoop, isSet, progressOf, statusOf, ih (idx + 1)]
    | ok df =>
      by_cases hdf : df.isEmpty <;>
        simp [runLoop, isSet, hdf, progressOf, statusOf, ih (idx + 1)]

theorem runLoop_none_logs (total : Nat) (addCol : Bool) (files : List (String × FileResult)) :
    ∀ (idx : Nat) (s : LoopState),
      (runLoop total addCol none idx files s).1.logs = s.logs ++ files.flatMap logOf := by
  induction files with
  | nil => intro idx s; simp [runLoop]
  | cons bf rest ih =>
    intro idx s
    rcases bf with ⟨base, fr⟩
    cases fr with
    | noSheet => simp [runLoop, isSet, logOf, ih (idx + 1)]
    | openError => simp [runLoop, isSet, logOf, ih (idx + 1)]
    | readFail => simp [runLoop, isSet, logOf, ih (idx + 1)]
    | ok df =>
      by_cases hdf : df.isEmpty <;>
        simp [runLoop, isSet, hdf, logOf, ih (idx + 1)]

theorem runLoop_cancel (total : Nat) (addCol : Bool) (c : Nat)
    (files : List (String × FileResult)) :
    ∀ (idx : Nat) (s : LoopState), idx ≤ c → c - idx < files.length →
      (runLoop total addCol (some c) idx files s).2 = true
      ∧ ∃ l, (runLoop total addCol (some c) idx files s).1.progress
          = s.progress ++ l ++ [(pct c total, Status.cancelledSt)] := by
  induction files with
  | nil => intro idx s h1 h2; simp at h2
  | cons bf rest ih =>
    intro idx s h1 h2
    rcases bf with ⟨base, fr⟩
    by_cases hci : c ≤ idx
    · have hc : c = idx := Nat.le_antisymm hci h1
      subst hc
      refine ⟨by simp [runLoop, isSet], ⟨[], by simp [runLoop, isSet]⟩⟩
    · have h1a : idx + 1 ≤ c := Nat.succ_le_of_lt (Nat.lt_of_not_le hci)
      have h2a : c - (idx + 1) < rest.length := by
        simp only [List.length_cons] at h2
        omega
      have hset : isSet (some c) idx = false := by
        simp [isSet, hci]
      cases fr with
      | noSheet =>
        rcases ih (idx + 1) _ h1a h2a with ⟨hc2, l, hl⟩
        exact ⟨by simpa [runLoop, hset] using hc2,
          ⟨(pct idx total, Status.skippedSt base) :: l, by simpa [runLoop, hset] using hl⟩⟩
      | openError =>
        rcases ih (idx + 1) _ h1a h2a with ⟨hc2, l, hl⟩
        exact ⟨by simpa [runLoop, hset] using hc2,
          ⟨(pct idx total, Status.errorSt base) :: l, by simpa [runLoop, hset] using hl⟩⟩
      | readFail =>
        rcases ih (idx + 1) _ h1a h2a with ⟨hc2, l, hl⟩
        exact ⟨by simpa [runLoop, hset] using hc2,
          ⟨(pct idx total, Status.errorSt base) :: l, by simpa [runLoop, hset] using hl⟩⟩
      | ok df =>
        by_cases hdf : df.isEmpty
        · rcases ih (idx + 1) _ h1a h2a with ⟨hc2, l, hl⟩
          exact ⟨by simpa [runLoop, hset, hdf] using hc2,
            ⟨(pct idx total, Status.readSt base) :: l, by simpa [runLoop, hset, hdf] using hl⟩⟩
        · rcases ih (idx + 1) _ h1a h2a with ⟨hc2, l, hl⟩
          exact ⟨by simpa [runLoop, hset, hdf] using hc2,
            ⟨(pct idx total, Status.readSt base) :: l, by simpa [runLoop, hset, hdf] using hl⟩⟩

theorem runLoop_frames_provenance (total : Nat) (addCol : Bool) (cAt : Option Nat)
    (files : List (String × FileResult)) :
    ∀ (idx : Nat) (s : LoopState),
      ∀ df ∈ (runLoop total addCol cAt idx files s).1.frames,
        df ∈ s.frames
        ∨ ∃ b df0, (b, FileResult.ok df0) ∈ files
            ∧ df0.isEmpty = false
            ∧ df = (if addCol then addSourceCol b df0 else df0) := by
  induction files with
  | nil =>
    intro idx s df hdf
    exact Or.inl hdf
  | cons bf rest ih =>
    intro idx s df hdf
    rcases bf with ⟨base, fr⟩
    by_cases hset : isSet cAt idx
    · simp only [runLoop, hset, if_true] at hdf
      exact Or.inl hdf
    · cases fr with
      | noSheet =>
        simp only [runLoop, hset, Bool.false_eq_true, if_false] at hdf
        rcases ih (idx + 1) _ df hdf with h | ⟨b, df0, hmem, hne, he⟩
        · exact Or.inl h
        · exact Or.inr ⟨b, df0, List.mem_cons_of_mem _ hmem, hne, he⟩
      | openError =>
        simp only [runLoop, hset, Bool.false_eq_true, if_false] at hdf
        rcases ih (idx + 1) _ df hdf with h | ⟨b, df0, hmem, hne, he⟩
        · exact Or.inl h
        · exact Or.inr ⟨b, df0, List.mem_cons_of_mem _ hmem, hne, he⟩
      | readFail =>
        simp only [runLoop, hset, Bool.false_eq_true, if_false] at hdf
        rcases ih (idx + 1) _ df hdf with h | ⟨b, df0, hmem, hne, he⟩
        · exact Or.inl h
        · exact Or.inr ⟨b, df0, List.mem_cons_of_mem _ hmem, hne, he⟩
      | ok df1 =>
        by_cases hdf1 : df1.isEmpty
        · simp only [runLoop, hset, Bool.false_eq_true, if_false, hdf1, if_true] at hdf
          rcases ih (idx + 1) _ df hdf with h | ⟨b, df0, hmem, hne, he⟩
          · exact Or.inl h
          · exact Or.inr ⟨b, df0, List.mem_cons_of_mem _ hmem, hne, he⟩
        · simp only [runLoop, hset, Bool.false_eq_true, if_false, hdf1] at hdf
          rcases ih (idx + 1) _ df hdf with h | ⟨b, df0, hmem, hne, he⟩
          · rcases List.mem_append.mp h with h2 | h2
            · exact Or.inl h2
            · refine Or.inr ⟨base, df1, List.mem_cons_self _ _, ?_, List.mem_singleton.mp h2⟩
              simpa using hdf1
          · exact Or.inr ⟨b, df0, List.mem_cons_of_mem _ hmem, hne, he⟩

/-- Appending one progress entry that dominates all previous ones keeps
the sequence non-decreasing. -/
theorem pairwise_append_one (l : List (Nat × Status)) (x : Nat × Status)
    (hl : l.Pairwise (fun a b => a.1 ≤ b.1)) (hx : ∀ p ∈ l, p.1 ≤ x.1) :
    (l ++ [x]).Pairwise (fun a b => a.1 ≤ b.1) := by
  rw [List.pairwise_append]
  exact ⟨hl, List.pairwise_singleton _ _, fun a ha b hb => (List.mem_singleton.mp hb) ▸ hx a ha⟩

theorem runLoop_progress_mono (total : Nat) (addCol : Bool) (cAt : Option Nat)
    (files : List (String × FileResult)) :
    ∀ (idx : Nat) (s : LoopState),
      idx + files.length ≤ total + 1 →
      s.progress.Pairwise (fun a b => a.1 ≤ b.1) →
      (∀ p ∈ s.progress, p.1 ≤ pct idx total) →
      (∀ p ∈ s.progress, p.1 ≤ 100) →
      ((runLoop total addCol cAt idx files s).1.progress.Pairwise (fun a b => a.1 ≤ b.1)
        ∧ ∀ p ∈ (runLoop total addCol cAt idx files s).1.progress, p.1 ≤ 100) := by
  induction files with
  | nil =>
    intro idx s hlen hpw hble hb100
    exact ⟨hpw, hb100⟩
  | cons bf rest ih =>
    intro idx s hlen hpw hble hb100
    rcases bf with ⟨base, fr⟩
    have hidx : idx ≤ total := by
      simp only [List.length_cons] at hlen
      omega
    have hp100 : pct idx total ≤ 100 := pct_le_100 total hidx
    have hstep : ∀ st : Status,
        ((s.progress ++ [(pct idx total, st)]).Pairwise (fun a b => a.1 ≤ b.1))
        ∧ (∀ p ∈ s.progress ++ [(pct idx total, st)], p.1 ≤ pct (idx + 1) total)
        ∧ (∀ p ∈ s.progress ++ [(pct idx total, st)], p.1 ≤ 100) := by
      intro st
      refine ⟨pairwise_append_one _ _ hpw (fun p hp => hble p hp), ?_, ?_⟩
      · intro p hp
        rcases List.mem_append.mp hp with h | h
        · exact Nat.le_trans (hble p h) (pct_mono total (Nat.le_succ idx))
        · rw [List.mem_singleton.mp h]
          exact pct_mono total (Nat.le_succ idx)
      · intro p hp
        rcases List.mem_append.mp hp with h | h
        · exact hb100 p h
        · rw [List.mem_singleton.mp h]
          exact hp100
    have hlen1 : (idx + 1) + rest.length ≤ total + 1 := by
      simp only [List.length_cons] at hlen
      omega
    by_cases hset : isSet cAt idx
    · constructor
      · simpa [runLoop, hset] using pairwise_append_one _ _ hpw (fun p hp => hble p hp)
      · intro p hp
        simp only [runLoop, hset, if_true] at hp
        rcases List.mem_append.mp hp with h | h
        · exact hb100 p h
        · rw [List.mem_singleton.mp h]
          exact hp100
    · cases fr with
      | noSheet =>
        rcases hstep (Status.skippedSt base) with ⟨a, b, c⟩
        simpa [runLoop, hset] using ih (idx + 1) _ hlen1 a b c
      | openError =>
        rcases hstep (Status.errorSt base) with ⟨a, b, c⟩
        simpa [runLoop, hset] using ih (idx + 1) _ hlen1 a b c
      | readFail =>
        rcases hstep (Status.errorSt base) with ⟨a, b, c⟩
        simpa [runLoop, hset] using ih (idx + 1) _ hlen1 a b c
      | ok df =>
        by_cases hdf : df.isEmpty
        · rcases hstep (Status.readSt base) with ⟨a, b, c⟩
          simpa [runLoop, hset, hdf] using ih (idx + 1) _ hlen1 a b c
        · rcases hstep (Status.readSt base) with ⟨a, b, c⟩
          simpa [runLoop, hset, hdf] using ih (idx + 1) _ hlen1 a b c

/-! ## Lemmas: the post-loop phase -/

theorem finishRun_frames (wOk : Bool) (p : LoopState × Bool) :
    (finishRun wOk p).frames = p.1.frames := by
  unfold finishRun
  by_cases h : p.2
  · simp [h]
  · simp only [h, Bool.false_eq_true, if_false]
    by_cases h2 : p.1.frames.isEmpty
    · simp [h2]
    · by_cases h3 : wOk <;> simp [h2, h3]

theorem finishRun_cancelled (wOk : Bool) (p : LoopState × Bool) (h : p.2 = true) :
    finishRun wOk p = RunResult.mk p.1.logs p.1.progress Terminal.cancelled none p.1.frames := by
  unfold finishRun
  rw [if_pos h]

theorem finishRun_terminal (wOk : Bool) (p : LoopState × Bool) (h : p.2 = false) :
    (finishRun wOk p).terminal
      = (if p.1.frames.isEmpty then Terminal.noData
         else if wOk then Terminal.completed else Terminal.error) := by
  unfold finishRun
  simp only [h, Bool.false_eq_true, if_false]
  by_cases h2 : p.1.frames.isEmpty
  · simp [h2]
  · by_cases h3 : wOk <;> simp [h2, h3]

theorem finishRun_progress (wOk : Bool) (p : LoopState × Bool) (h : p.2 = false) :
    ∃ st, (finishRun wOk p).progress = p.1.progress ++ [(100, st)] := by
  unfold finishRun
  simp only [h, Bool.false_eq_true, if_false]
  by_cases h2 : p.1.frames.isEmpty
  · exact ⟨Status.noDataSt, by simp [h2]⟩
  · by_cases h3 : wOk
    · exact ⟨Status.doneSt, by simp [h2, h3]⟩
    · exact ⟨Status.saveErrSt, by simp [h2, h3]⟩

theorem finishRun_logs (wOk : Bool) (p : LoopState × Bool) :
    ∃ l2, (finishRun wOk p).logs = p.1.logs ++ l2 := by
  unfold finishRun
  by_cases h : p.2
  · exact ⟨[], by simp [h]⟩
  · simp only [h, Bool.false_eq_true, if_false]
    by_cases h2 : p.1.frames.isEmpty
    · refine ⟨LogMsg.summary p.1.processed p.1.withSheet
        :: ((if p.1.emptyList = [] then [] else [LogMsg.emptyWarn p.1.emptyList])
            ++ [LogMsg.noDataMsg]), ?_⟩
      simp [h2, List.append_assoc]
    · by_cases h3 : wOk
      · refine ⟨LogMsg.summary p.1.processed p.1.withSheet
          :: ((if p.1.emptyList = [] then [] else [LogMsg.emptyWarn p.1.emptyList])
              ++ [LogMsg.successRows (safe_concat p.1.frames).rows.length, LogMsg.savedPath]), ?_⟩
        simp [h2, h3, List.append_assoc]
      · refine ⟨LogMsg.summary p.1.processed p.1.withSheet
          :: ((if p.1.emptyList = [] then [] else [LogMsg.emptyWarn p.1.emptyList])
              ++ [LogMsg.saveErrMsg]), ?_⟩
        simp [h2, h3, List.append_assoc]

theorem finishRun_output_some (wOk : Bool) (p : LoopState × Bool) (t : DataFrame)
    (h : (finishRun wOk p).output = some t) :
    p.2 = false ∧ p.1.frames ≠ [] ∧ t = safe_concat p.1.frames := by
  unfold finishRun at h
  by_cases hc : p.2
  · simp [hc] at h
  · simp only [hc, Bool.false_eq_true, if_false] at h
    by_cases h2 : p.1.frames.isEmpty
    · simp [h2] at h
    · by_cases h3 : wOk
      · simp only [h2, Bool.false_eq_true, if_false, h3, if_true, Option.some.injEq] at h
        exact ⟨Bool.eq_false_iff.mpr hc, by simpa using h2, h.symm⟩
      · simp [h2, h3] at h

theorem run_nil (addCol : Bool) (cAt : Option Nat) (wOk : Bool) :
    run [] addCol cAt wOk
      = RunResult.mk [LogMsg.noFilesFound] [(0, Status.noFilesSt)] Terminal.noFiles none [] := rfl

theorem run_cons (files : List (String × FileResult)) (addCol : Bool)
    (cAt : Option Nat) (wOk : Bool) (h : files ≠ []) :
    run files addCol cAt wOk
      = finishRun wOk (runLoop files.length addCol cAt 1 files
          { frames := [], processed := 0, withSheet := 0, emptyList := [],
            logs := [.foundCount files.length], progress := [] }) := by
  unfold run
  rw [if_neg (by simpa [List.length_eq_zero] using h)]

/-! ## Lemmas: whole runs without cancellation -/

theorem run_none_frames (files : List (String × FileResult)) (addCol wOk : Bool) :
    (run files addCol none wOk).frames = framesOf addCol files := by
  rcases hfe : files with _ | ⟨bf, rest⟩
  · rw [run_nil]
    rfl
  · rw [run_cons _ _ _ _ (by simp), finishRun_frames, runLoop_none_frames]
    simp

theorem run_none_terminal (files : List (String × FileResult)) (addCol wOk : Bool)
    (hne : files ≠ []) :
    (run files addCol none wOk).terminal
      = (if (framesOf addCol files).isEmpty then Terminal.noData
         else if wOk then Terminal.completed else Terminal.error) := by
  rw [run_cons _ _ _ _ hne, finishRun_terminal _ _ (runLoop_none_snd _ _ _ _ _),
    runLoop_none_frames]
  simp

theorem run_none_log_mem (files : List (String × FileResult)) (addCol wOk : Bool)
    (hne : files ≠ []) (m : LogMsg) (hm : m ∈ files.flatMap logOf) :
    m ∈ (run files addCol none wOk).logs := by
  rw [run_cons _ _ _ _ hne]
  rcases finishRun_logs wOk (runLoop files.length addCol none 1 files
    { frames := [], processed := 0, withSheet := 0, emptyList := [],
      logs := [.foundCount files.length], progress := [] }) with ⟨l2, hl⟩
  rw [hl, runLoop_none_logs]
  exact List.mem_append_left l2 (List.mem_append_right _ hm)

theorem progressOf_mem (total : Nat) (l1 l2 : List (String × FileResult))
    (bf : String × FileResult) :
    ∀ idx, (pct (idx + l1.length) total, statusOf bf) ∈ progressOf total idx (l1 ++ bf :: l2) := by
  induction l1 with
  | nil =>
    intro idx
    simp only [List.nil_append, List.length_nil, Nat.add_zero, progressOf]
    exact List.mem_cons_self _ _
  | cons x xs ih =>
    intro idx
    rw [List.cons_append]
    have harith : idx + (x :: xs).length = (idx + 1) + xs.length := by
      simp only [List.length_cons]
      omega
    rw [harith]
    simp only [progressOf]
    exact List.mem_cons_of_mem _ (ih (idx + 1))

theorem run_none_progress_mem (files : List (String × FileResult)) (addCol wOk : Bool)
    (hne : files ≠ []) (e : Nat × Status) (he : e ∈ progressOf files.length 1 files) :
    e ∈ (run files addCol none wOk).progress := by
  rw [run_cons _ _ _ _ hne]
  rcases finishRun_progress wOk (runLoop files.length addCol none 1 files
    { frames := [], processed := 0, withSheet := 0, emptyList := [],
      logs := [.foundCount files.length], progress := [] })
    (runLoop_none_snd _ _ _ _ _) with ⟨st, hpr⟩
  rw [hpr, runLoop_none_progress]
  exact List.mem_append_left _ (by simpa using he)

/-! ## Lemmas: the head of the column union -/

theorem addCols_ne_nil (acc cs : List String) (h : acc ≠ []) : addCols acc cs ≠ [] := by
  intro he
  have hh := addCols_head acc cs h
  rw [he] at hh
  rcases acc with _ | ⟨a, t⟩
  · exact h rfl
  · simp at hh

theorem foldl_addCols_head (l : List DataFrame) (acc : List String) (h : acc ≠ []) :
    (l.foldl (fun a d => addCols a d.cols) acc).head? = acc.head?
    ∧ l.foldl (fun a d => addCols a d.cols) acc ≠ [] := by
  induction l generalizing acc with
  | nil => exact ⟨rfl, h⟩
  | cons d ds ih =>
    have hne : addCols acc d.cols ≠ [] := addCols_ne_nil acc d.cols h
    rcases ih (addCols acc d.cols) hne with ⟨h1, h2⟩
    exact ⟨by rw [List.foldl_cons, h1, addCols_head acc d.cols h], by rwa [List.foldl_cons]⟩

theorem unionCols_head (frames : List DataFrame) (hne : frames ≠ [])
    (hall : ∀ df ∈ frames, df.cols.head? = some "Arquivo_Origem") :
    (unionCols frames).head? = some "Arquivo_Origem" := by
  rcases frames with _ | ⟨d, rest⟩
  · exact absurd rfl hne
  · have hd := hall d (List.mem_cons_self d rest)
    rcases hcols : d.cols with _ | ⟨c, cs⟩
    · rw [hcols] at hd
      simp at hd
    · rw [hcols] at hd
      have hc : c = "Arquivo_Origem" := by simpa using hd
      have hstep : addCols [] d.cols = addCols [c] cs := by
        rw [hcols, addCols_cons]
        simp
      rw [unionCols_cons, (foldl_addCols_head rest (addCols [] d.cols)
        (by rw [hstep]; exact addCols_ne_nil [c] cs (by simp))).1]
      rw [hstep, addCols_head [c] cs (by simp), hc]
      rfl

theorem safe_concat_cols_head (frames : List DataFrame) (hne : frames ≠ [])
    (hall : ∀ df ∈ frames, df.cols.head? = some "Arquivo_Origem") :
    (safe_concat frames).cols.head? = some "Arquivo_Origem" := by
  rw [safe_concat_cols frames hne]
  exact unionCols_head frames hne hall

/-! ## Lemmas: the locator predicate -/

theorem isExcelFile_spec (p : String) (h : isExcelFile p = true) :
    (basename p).startsWith "~$" = false
    ∧ ((splitExt (basename p)).2.toLower = ".xlsx"
        ∨ (splitExt (basename p)).2.toLower = ".xlsm") := by
  simp only [isExcelFile] at h
  by_cases hs : (basename p).startsWith "~$"
  · rw [if_pos hs] at h
    cases h
  · rw [if_neg hs] at h
    refine ⟨Bool.eq_false_iff.mpr hs, ?_⟩
    rcases (Bool.or_eq_true _ _).mp h with h1 | h1
    · exact Or.inl (eq_of_beq h1)
    · exact Or.inr (eq_of_beq h1)

/-! ## Claim theorems -/

/-- C1: for every sequence of retained tables, the union column list of
`safe_concat` is the first-seen ordered union of the tables' columns in
processing order (duplicates not re-added), its length is at least every
individual table's column count, and reconciling already-reconciled
tables is a no-op. -/
theorem union_first_seen_and_reconcile_idempotent (dfs : List DataFrame) :
    unionCols dfs = firstSeen ((dfs.map (fun d => d.cols)).flatten)
    ∧ (unionCols dfs).Nodup
    ∧ (∀ c, c ∈ unionCols dfs ↔ ∃ df ∈ dfs, c ∈ df.cols)
    ∧ (∀ df ∈ dfs, df.cols.Nodup → df.cols.length ≤ (unionCols dfs).length)
    ∧ reconcile (reconcile dfs) = reconcile dfs := by
  refine ⟨unionCols_eq_firstSeen dfs, unionCols_nodup dfs, mem_unionCols dfs, ?_,
    reconcile_idem dfs⟩
  intro df hdf hnd
  exact (List.subperm_of_subset hnd (cols_subset_unionCols dfs df hdf)).length_le

/-- Witness for C1 at two concrete overlapping tables. -/
theorem union_first_seen_and_reconcile_idempotent_witness :
    (DataFrame.mk ["A", "B"] []) ∈ [DataFrame.mk ["A", "B"] [], DataFrame.mk ["B", "C"] []]
    ∧ (DataFrame.mk ["A", "B"] []).cols.Nodup
    ∧ (DataFrame.mk ["A", "B"] []).cols.length
        ≤ (unionCols [DataFrame.mk ["A", "B"] [], DataFrame.mk ["B", "C"] []]).length :=
  ⟨by decide, by decide,
    (union_first_seen_and_reconcile_idempotent
        [DataFrame.mk ["A", "B"] [], DataFrame.mk ["B", "C"] []]).2.2.2.1
      (DataFrame.mk ["A", "B"] []) (by decide) (by decide)⟩

/-- C3: after reconciliation every table carries the full union column
sequence and its original row count, and every union column absent from
the table holds the `na` sentinel in every row; the sentinel is neither
zero nor the empty string. -/
theorem reindex_fills_missing_with_sentinel (dfs : List DataFrame) (df : DataFrame)
    (_hdf : df ∈ dfs) :
    (reindex (unionCols dfs) df).cols = unionCols dfs
    ∧ (reindex (unionCols dfs) df).rows.length = df.rows.length
    ∧ (∀ c ∈ unionCols dfs, c ∉ df.cols →
        ∀ row ∈ (reindex (unionCols dfs) df).rows, getCell (unionCols dfs) row c = Val.na)
    ∧ Val.na ≠ Val.num 0 ∧ Val.na ≠ Val.str "" := by
  refine ⟨rfl, reindex_rows_length _ _, ?_, by decide, by decide⟩
  intro c hcu hcn row hrow
  simp only [reindex] at hrow
  rcases List.mem_map.mp hrow with ⟨r, hr, rfl⟩
  rw [getCell_reindexRow df.cols (unionCols dfs) r c hcu, getCell_not_mem df.cols r c hcn]

/-- Witness for C3: a table lacking column B of the union holds the
sentinel there. -/
theorem reindex_fills_missing_with_sentinel_witness :
    (DataFrame.mk ["A"] [[Val.num 1]])
        ∈ [DataFrame.mk ["A"] [[Val.num 1]], DataFrame.mk ["B"] [[Val.num 2]]]
    ∧ "B" ∈ unionCols [DataFrame.mk ["A"] [[Val.num 1]], DataFrame.mk ["B"] [[Val.num 2]]]
    ∧ "B" ∉ (DataFrame.mk ["A"] [[Val.num 1]]).cols
    ∧ ∀ row ∈ (reindex
          (unionCols [DataFrame.mk ["A"] [[Val.num 1]], DataFrame.mk ["B"] [[Val.num 2]]])
          (DataFrame.mk ["A"] [[Val.num 1]])).rows,
        getCell (unionCols [DataFrame.mk ["A"] [[Val.num 1]], DataFrame.mk ["B"] [[Val.num 2]]])
          row "B" = Val.na :=
  ⟨by decide, by decide, by decide,
    (reindex_fills_missing_with_sentinel
        [DataFrame.mk ["A"] [[Val.num 1]], DataFrame.mk ["B"] [[Val.num 2]]]
        (DataFrame.mk ["A"] [[Val.num 1]]) (by decide)).2.2.1 "B" (by decide) (by decide)⟩

/-- C9: `safe_concat` of a single table with distinct column names and
well-formed rows is that table unchanged, and `safe_concat` of the empty
sequence is the empty table with zero rows and zero columns. -/
theorem safe_concat_singleton_identity (df : DataFrame) (hnd : df.cols.Nodup)
    (hw : ∀ r ∈ df.rows, r.length = df.cols.length) :
    safe_concat [df] = df ∧ safe_concat [] = DataFrame.mk [] [] := by
  refine ⟨?_, rfl⟩
  have hu : unionCols [df] = df.cols := by
    have h1 : unionCols [df] = addCols [] df.cols := rfl
    rw [h1, ← firstSeen_eq_addCols]
    exact firstSeen_of_nodup df.cols hnd
  have hrec : reconcile [df] = [df] := by
    unfold reconcile
    rw [List.map_cons, List.map_nil, hu, reindex_self df hnd hw]
  unfold safe_concat
  rw [if_neg (by simp), hrec, hu]
  rcases df with ⟨cols, rows⟩
  simp

/-- Witness for C9 at a concrete two-column table. -/
theorem safe_concat_singleton_identity_witness :
    (DataFrame.mk ["A", "B"] [[Val.num 1, Val.num 2]]).cols.Nodup
    ∧ (∀ r ∈ (DataFrame.mk ["A", "B"] [[Val.num 1, Val.num 2]]).rows,
        r.length = (DataFrame.mk ["A", "B"] [[Val.num 1, Val.num 2]]).cols.length)
    ∧ safe_concat [DataFrame.mk ["A", "B"] [[Val.num 1, Val.num 2]]]
        = DataFrame.mk ["A", "B"] [[Val.num 1, Val.num 2]] :=
  ⟨by decide, by decide,
    (safe_concat_singleton_identity (DataFrame.mk ["A", "B"] [[Val.num 1, Val.num 2]])
      (by decide) (by decide)).1⟩

/-- C2: the combined table stacks exactly the reindexed rows of the
retained tables in processing order (no sorting, no deduplication), its
row count is the sum of the tables' row counts, its column set contains
every input column, and every reindexed row agrees with its original row
on the originating table's own columns. -/
theorem combined_contains_every_row_once (dfs : List DataFrame) (hne : dfs ≠ []) :
    (safe_concat dfs).rows = ((reconcile dfs).map (fun df => df.rows)).flatten
    ∧ (safe_concat dfs).rows.length = (dfs.map (fun df => df.rows.length)).sum
    ∧ (∀ df ∈ dfs, ∀ c ∈ df.cols, c ∈ (safe_concat dfs).cols)
    ∧ (∀ df ∈ dfs, ∀ r ∈ df.rows, ∀ c ∈ df.cols,
        getCell (unionCols dfs) (reindexRow df.cols (unionCols dfs) r) c
          = getCell df.cols r c) := by
  refine ⟨safe_concat_rows dfs hne, ?_, ?_, ?_⟩
  · rw [safe_concat_rows dfs hne, List.length_flatten, List.map_map, reconcile, List.map_map]
    congr 1
    refine List.map_congr_left fun df hdf => ?_
    exact reindex_rows_length (unionCols dfs) df
  · intro df hdf c hc
    rw [safe_concat_cols dfs hne]
    exact cols_subset_unionCols dfs df hdf hc
  · intro df hdf r hr c hc
    exact getCell_reindexRow df.cols (unionCols dfs) r c (cols_subset_unionCols dfs df hdf hc)

/-- Witness for C2 at the three-table example with columns
[A,B], [B,C], [A,C]. -/
theorem combined_contains_every_row_once_witness :
    ([DataFrame.mk ["A", "B"] [[Val.num 1, Val.num 2]],
      DataFrame.mk ["B", "C"] [[Val.num 3, Val.num 4]],
      DataFrame.mk ["A", "C"] [[Val.num 5, Val.num 6]]] : List DataFrame) ≠ []
    ∧ (safe_concat [DataFrame.mk ["A", "B"] [[Val.num 1, Val.num 2]],
        DataFrame.mk ["B", "C"] [[Val.num 3, Val.num 4]],
        DataFrame.mk ["A", "C"] [[Val.num 5, Val.num 6]]]).rows.length
      = ([DataFrame.mk ["A", "B"] [[Val.num 1, Val.num 2]],
          DataFrame.mk ["B", "C"] [[Val.num 3, Val.num 4]],
          DataFrame.mk ["A", "C"] [[Val.num 5, Val.num 6]]].map
            (fun df => df.rows.length)).sum :=
  ⟨by decide,
    (combined_contains_every_row_once
      [DataFrame.mk ["A", "B"] [[Val.num 1, Val.num 2]],
       DataFrame.mk ["B", "C"] [[Val.num 3, Val.num 4]],
       DataFrame.mk ["A", "C"] [[Val.num 5, Val.num 6]]] (by decide)).2.1⟩

/-- C4: the locator output is sorted lexicographically by full path, has
no duplicates when the filesystem enumeration has none, contains exactly
the enumerated files accepted by the extension/lock-file predicate, and
an empty output leads to the NoFiles terminal state, not an error. -/
theorem locator_sorted_nodup_filtered (recursive : Bool) (rootDir : String)
    (walk : List (String × List String)) (listing : List (String × Bool))
    (hnd : (candidatePaths recursive rootDir walk listing).Nodup) :
    (listExcelFiles recursive rootDir walk listing).Pairwise (fun a b => a ≤ b)
    ∧ (listExcelFiles recursive rootDir walk listing).Nodup
    ∧ (∀ p, p ∈ listExcelFiles recursive rootDir walk listing
        ↔ p ∈ candidatePaths recursive rootDir walk listing ∧ isExcelFile p = true)
    ∧ (∀ p ∈ listExcelFiles recursive rootDir walk listing,
        (basename p).startsWith "~$" = false
        ∧ ((splitExt (basename p)).2.toLower = ".xlsx"
            ∨ (splitExt (basename p)).2.toLower = ".xlsm"))
    ∧ (listExcelFiles recursive rootDir walk listing = []
        → ∀ (addCol : Bool) (cAt : Option Nat) (writeOk : Bool),
          (run [] addCol cAt writeOk).terminal = Terminal.noFiles
          ∧ (run [] addCol cAt writeOk).terminal ≠ Terminal.error) := by
  have hperm := List.mergeSort_perm
    ((candidatePaths recursive rootDir walk listing).filter isExcelFile)
    (fun a b => decide (a ≤ b))
  have hmem : ∀ p, p ∈ listExcelFiles recursive rootDir walk listing
      ↔ p ∈ candidatePaths recursive rootDir walk listing ∧ isExcelFile p = true :=
    fun p => Iff.trans hperm.mem_iff List.mem_filter
  refine ⟨?_, ?_, hmem, ?_, ?_⟩
  · have hs := @List.sorted_mergeSort String (fun a b => decide (a ≤ b))
      (fun a b c hab hbc => by
        simp only [decide_eq_true_eq] at hab hbc ⊢
        exact le_trans hab hbc)
      (fun a b => by
        simp only [Bool.or_eq_true, decide_eq_true_eq]
        exact le_total a b)
      ((candidatePaths recursive rootDir walk listing).filter isExcelFile)
    exact hs.imp fun h => of_decide_eq_true h
  · exact hperm.nodup_iff.mpr (List.Nodup.filter isExcelFile hnd)
  · intro p hp
    exact isExcelFile_spec p ((hmem p).mp hp).2
  · intro _ addCol cAt writeOk
    exact ⟨by rw [run_nil], by rw [run_nil]; decide⟩

/-- Witness for C4 on a concrete two-directory walk with a lock file and
a non-spreadsheet file. -/
theorem locator_sorted_nodup_filtered_witness :
    (candidatePaths true "r"
      [("r", ["b.xlsx", "a.xlsx", "~$a.xlsx"]), ("r/s", ["c.XLSM", "d.txt"])] []).Nodup
    ∧ (listExcelFiles true "r"
        [("r", ["b.xlsx", "a.xlsx", "~$a.xlsx"]), ("r/s", ["c.XLSM", "d.txt"])] []).Nodup :=
  ⟨by decide,
    (locator_sorted_nodup_filtered true "r"
      [("r", ["b.xlsx", "a.xlsx", "~$a.xlsx"]), ("r/s", ["c.XLSM", "d.txt"])] []
      (by decide)).2.1⟩

/-- C5: a candidate whose sheet is missing or whose open/read fails
produces its log entry and its progress event, contributes no retained
frame (the retained list equals the one without that candidate), and the
batch still reaches its normal post-loop terminal state. -/
theorem per_file_failure_isolated (pre post : List (String × FileResult)) (b : String)
    (f : FileResult) (addCol wOk : Bool)
    (hf : f = FileResult.noSheet ∨ f = FileResult.openError ∨ f = FileResult.readFail) :
    (∀ m ∈ logOf (b, f), m ∈ (run (pre ++ (b, f) :: post) addCol none wOk).logs)
    ∧ (pct (pre.length + 1) (pre ++ (b, f) :: post).length, statusOf (b, f))
        ∈ (run (pre ++ (b, f) :: post) addCol none wOk).progress
    ∧ (run (pre ++ (b, f) :: post) addCol none wOk).frames
        = (run (pre ++ post) addCol none wOk).frames
    ∧ (run (pre ++ (b, f) :: post) addCol none wOk).terminal
        = (if (run (pre ++ (b, f) :: post) addCol none wOk).frames.isEmpty
           then Terminal.noData
           else if wOk then Terminal.completed else Terminal.error) := by
  have hne : pre ++ (b, f) :: post ≠ [] := by simp
  refine ⟨?_, ?_, ?_, ?_⟩
  · intro m hm
    exact run_none_log_mem _ addCol wOk hne m (List.mem_flatMap.mpr ⟨(b, f), by simp, hm⟩)
  · have hp := progressOf_mem (pre ++ (b, f) :: post).length pre post (b, f) 1
    rw [Nat.add_comm 1 pre.length] at hp
    exact run_none_progress_mem _ addCol wOk hne _ hp
  · rw [run_none_frames, run_none_frames]
    unfold framesOf
    rw [List.filterMap_append, List.filterMap_append, List.filterMap_cons]
    have hnone : frameOf addCol (b, f) = none := by
      rcases hf with rfl | rfl | rfl <;> rfl
    rw [hnone]
  · rw [run_none_frames]
    exact run_none_terminal _ addCol wOk hne

/-- Witness for C5: a missing-sheet file in a two-file batch leaves its
log entry. -/
theorem per_file_failure_isolated_witness :
    LogMsg.skippedMsg "bad.xlsx" ∈
      (run [("a.xlsx", FileResult.ok (DataFrame.mk ["X"] [[Val.num 1]])),
            ("bad.xlsx", FileResult.noSheet)] true none true).logs :=
  (per_file_failure_isolated [("a.xlsx", FileResult.ok (DataFrame.mk ["X"] [[Val.num 1]]))]
    [] "bad.xlsx" FileResult.noSheet true true (Or.inl rfl)).1
    (LogMsg.skippedMsg "bad.xlsx") (by decide)

/-- C6 counterexample: the NoFiles terminal state emits a final progress
percentage of 0, not 100 as claimed (source line 78 passes 0). -/
theorem noFiles_final_progress_counterexample :
    (run [] true none true).terminal = Terminal.noFiles
    ∧ ((run [] true none true).progress.getLast?.map Prod.fst) = some 0
    ∧ ¬((run [] true none true).progress.getLast?.map Prod.fst) = some 100 := by
  decide

/-- C6 (amended): every non-cancelled terminal state emits a final
progress percentage of 100, except NoFiles, which emits 0. -/
theorem final_progress_hundred_except_noFiles (files : List (String × FileResult))
    (addCol : Bool) (cAt : Option Nat) (wOk : Bool)
    (h : (run files addCol cAt wOk).terminal ≠ Terminal.cancelled) :
    ((run files addCol cAt wOk).progress.getLast?.map Prod.fst)
      = some (if (run files addCol cAt wOk).terminal = Terminal.noFiles then 0 else 100) := by
  cases files with
  | nil =>
    rw [run_nil]
    decide
  | cons bf rest =>
    have hne : (bf :: rest : List (String × FileResult)) ≠ [] := by simp
    rw [run_cons _ _ _ _ hne] at h ⊢
    by_cases hc : (runLoop (bf :: rest).length addCol cAt 1 (bf :: rest)
      { frames := [], processed := 0, withSheet := 0, emptyList := [],
        logs := [.foundCount (bf :: rest).length], progress := [] }).2
    · rw [finishRun_cancelled _ _ hc] at h
      exact absurd rfl h
    · have hcf := Bool.eq_false_iff.mpr hc
      rcases finishRun_progress wOk _ hcf with ⟨st, hpr⟩
      rw [hpr]
      have hterm := finishRun_terminal wOk _ hcf
      have hne2 : (finishRun wOk (runLoop (bf :: rest).length addCol cAt 1 (bf :: rest)
          { frames := [], processed := 0, withSheet := 0, emptyList := [],
            logs := [.foundCount (bf :: rest).length], progress := [] })).terminal
          ≠ Terminal.noFiles := by
        rw [hterm]
        split
        · decide
        · split <;> decide
      rw [if_neg hne2]
      simp [List.getLast?_append]

/-- Witness for C6 (amended): a completed single-file run ends at 100. -/
theorem final_progress_hundred_except_noFiles_witness :
    (run [("a.xlsx", FileResult.ok (DataFrame.mk ["X"] [[Val.num 1]]))] true none true).terminal
      ≠ Terminal.cancelled
    ∧ ((run [("a.xlsx", FileResult.ok (DataFrame.mk ["X"] [[Val.num 1]]))]
          true none true).progress.getLast?.map Prod.fst)
      = some (if (run [("a.xlsx", FileResult.ok (DataFrame.mk ["X"] [[Val.num 1]]))]
          true none true).terminal = Terminal.noFiles then 0 else 100) :=
  ⟨by decide, final_progress_hundred_except_noFiles _ _ _ _ (by decide)⟩

/-- C7 counterexample: cancelling a 5-file batch after 2 files are done
(flag observed at file 3) reports floor(3/5*100) = 60, not the claimed
fraction actually completed floor(2/5*100) = 40. -/
theorem cancelled_progress_counterexample :
    (run [("a", FileResult.ok (DataFrame.mk ["X"] [[Val.num 1]])),
          ("b", FileResult.ok (DataFrame.mk ["X"] [[Val.num 2]])),
          ("c", FileResult.ok (DataFrame.mk ["X"] [[Val.num 3]])),
          ("d", FileResult.ok (DataFrame.mk ["X"] [[Val.num 4]])),
          ("e", FileResult.ok (DataFrame.mk ["X"] [[Val.num 5]]))]
        false (some 3) true).terminal = Terminal.cancelled
    ∧ ((run [("a", FileResult.ok (DataFrame.mk ["X"] [[Val.num 1]])),
          ("b", FileResult.ok (DataFrame.mk ["X"] [[Val.num 2]])),
          ("c", FileResult.ok (DataFrame.mk ["X"] [[Val.num 3]])),
          ("d", FileResult.ok (DataFrame.mk ["X"] [[Val.num 4]])),
          ("e", FileResult.ok (DataFrame.mk ["X"] [[Val.num 5]]))]
        false (some 3) true).progress.getLast?.map Prod.fst) = some 60
    ∧ ¬(60 : Nat) = pct 2 5 := by
  decide

/-- C7 (amended): a run of n files with the cancellation flag first
observed at the (1-based) file index c, 1 ≤ c ≤ n, ends in the Cancelled
terminal state (distinct from Error), writes no output, and reports a
final percentage of floor(c/n*100) -- the index of the file at which
cancellation was observed, one more than the count of completed files. -/
theorem cancelled_run_discards_output (files : List (String × FileResult))
    (addCol wOk : Bool) (c : Nat) (h1 : 1 ≤ c) (h2 : c ≤ files.length) :
    (run files addCol (some c) wOk).terminal = Terminal.cancelled
    ∧ (run files addCol (some c) wOk).terminal ≠ Terminal.error
    ∧ (run files addCol (some c) wOk).output = none
    ∧ ((run files addCol (some c) wOk).progress.getLast?.map Prod.fst)
      = some (pct c files.length) := by
  have hne : files ≠ [] := by
    intro he
    rw [he] at h2
    simp at h2
    omega
  rw [run_cons _ _ _ _ hne]
  have h2a : c - 1 < files.length := by omega
  rcases runLoop_cancel files.length addCol c files 1
    { frames := [], processed := 0, withSheet := 0, emptyList := [],
      logs := [.foundCount files.length], progress := [] } h1 h2a with ⟨hc2, l, hl⟩
  rw [finishRun_cancelled _ _ hc2]
  refine ⟨rfl, by intro hx; exact Terminal.noConfusion hx, rfl, ?_⟩
  rw [hl]
  simp [List.getLast?_append]

/-- Witness for C7 (amended): cancelling a two-file run at the first
file. -/
theorem cancelled_run_discards_output_witness :
    (run [("a", FileResult.noSheet), ("b", FileResult.noSheet)] true (some 1) true).terminal
      = Terminal.cancelled
    ∧ (run [("a", FileResult.noSheet), ("b", FileResult.noSheet)] true (some 1) true).output
      = none :=
  ⟨(cancelled_run_discards_output [("a", FileResult.noSheet), ("b", FileResult.noSheet)]
      true true 1 (by decide) (by decide)).1,
    (cancelled_run_discards_output [("a", FileResult.noSheet), ("b", FileResult.noSheet)]
      true true 1 (by decide) (by decide)).2.2.1⟩

/-- C8: within one run the sequence of emitted progress percentages is
monotonically non-decreasing. -/
theorem progress_monotone (files : List (String × FileResult)) (addCol : Bool)
    (cAt : Option Nat) (wOk : Bool) :
    (run files addCol cAt wOk).progress.Pairwise (fun a b => a.1 ≤ b.1) := by
  cases files with
  | nil =>
    rw [run_nil]
    simp
  | cons bf rest =>
    have hne : (bf :: rest : List (String × FileResult)) ≠ [] := by simp
    rw [run_cons _ _ _ _ hne]
    rcases runLoop_progress_mono (bf :: rest).length addCol cAt (bf :: rest) 1
      { frames := [], processed := 0, withSheet := 0, emptyList := [],
        logs := [.foundCount (bf :: rest).length], progress := [] }
      (by simp; omega) (by simp) (by simp) (by simp) with ⟨hpw, hb100⟩
    by_cases hc : (runLoop (bf :: rest).length addCol cAt 1 (bf :: rest)
      { frames := [], processed := 0, withSheet := 0, emptyList := [],
        logs := [.foundCount (bf :: rest).length], progress := [] }).2
    · rw [finishRun_cancelled _ _ hc]
      exact hpw
    · rcases finishRun_progress wOk _ (Bool.eq_false_iff.mpr hc) with ⟨st, hpr⟩
      rw [hpr]
      exact pairwise_append_one _ _ hpw (fun p hp => hb100 p hp)

/-- C10: with the add-source-column option on, every retained frame is
some successfully read non-empty frame with the column "Arquivo_Origem"
prepended at position 0 carrying the file's base name in every row, and
the combined output's first column is "Arquivo_Origem". -/
theorem source_column_first (files : List (String × FileResult))
    (cAt : Option Nat) (wOk : Bool) :
    (∀ df ∈ (run files true cAt wOk).frames,
      ∃ b df0, (b, FileResult.ok df0) ∈ files ∧ df = addSourceCol b df0
        ∧ df.cols.head? = some "Arquivo_Origem"
        ∧ ∀ row ∈ df.rows, row.head? = some (Val.str b))
    ∧ ((run files true cAt wOk).frames ≠ []
        → (safe_concat ((run files true cAt wOk).frames)).cols.head?
            = some "Arquivo_Origem")
    ∧ (∀ t, (run files true cAt wOk).output = some t
        → t.cols.head? = some "Arquivo_Origem") := by
  have hframes : ∀ df ∈ (run files true cAt wOk).frames,
      ∃ b df0, (b, FileResult.ok df0) ∈ files ∧ df = addSourceCol b df0 := by
    cases files with
    | nil =>
      rw [run_nil]
      intro df hdf
      simp at hdf
    | cons bf rest =>
      intro df hdf
      rw [run_cons _ _ _ _ (by simp), finishRun_frames] at hdf
      rcases runLoop_frames_provenance (bf :: rest).length true cAt (bf :: rest) 1
        { frames := [], processed := 0, withSheet := 0, emptyList := [],
          logs := [.foundCount (bf :: rest).length], progress := [] } df hdf with
        h | ⟨b, df0, hmem, _, he⟩
      · simp at h
      · exact ⟨b, df0, hmem, by simpa using he⟩
  have hhead : ∀ df ∈ (run files true cAt wOk).frames,
      df.cols.head? = some "Arquivo_Origem" := by
    intro df hdf
    rcases hframes df hdf with ⟨b, df0, _, rfl⟩
    rfl
  refine ⟨?_, ?_, ?_⟩
  · intro df hdf
    rcases hframes df hdf with ⟨b, df0, hmem, rfl⟩
    refine ⟨b, df0, hmem, rfl, rfl, ?_⟩
    intro row hrow
    simp only [addSourceCol] at hrow
    rcases List.mem_map.mp hrow with ⟨r, _, rfl⟩
    rfl
  · intro hne
    exact safe_concat_cols_head _ hne hhead
  · intro t ht
    cases files with
    | nil =>
      rw [run_nil] at ht
      simp at ht
    | cons bf rest =>
      have hfr : (run (bf :: rest) true cAt wOk).frames
          = (runLoop (bf :: rest).length true cAt 1 (bf :: rest)
              { frames := [], processed := 0, withSheet := 0, emptyList := [],
                logs := [.foundCount (bf :: rest).length], progress := [] }).1.frames := by
        rw [run_cons _ _ _ _ (by simp), finishRun_frames]
      rw [run_cons _ _ _ _ (by simp)] at ht
      rcases finishRun_output_some wOk _ t ht with ⟨_, hfne, rfl⟩
      apply safe_concat_cols_head _ hfne
      intro df hdf
      apply hhead
      rw [hfr]
      exact hdf

/-- Witness for C10: one source file produces an output whose first
column is "Arquivo_Origem". -/
theorem source_column_first_witness :
    (run [("a.xlsx", FileResult.ok (DataFrame.mk ["X"] [[Val.num 7]]))] true none true).output
      = some (DataFrame.mk ["Arquivo_Origem", "X"] [[Val.str "a.xlsx", Val.num 7]])
    ∧ (DataFrame.mk ["Arquivo_Origem", "X"] [[Val.str "a.xlsx", Val.num 7]]).cols.head?
      = some "Arquivo_Origem" :=
  ⟨by decide,
    (source_column_first [("a.xlsx", FileResult.ok (DataFrame.mk ["X"] [[Val.num 7]]))]
      none true).2.2
      (DataFrame.mk ["Arquivo_Origem", "X"] [[Val.str "a.xlsx", Val.num 7]]) (by decide)⟩
